import Mathlib

/-!
Verification of the blogicum blog application core
(`blog/views.py` and `blog/forms.py`): the visibility filter,
the listing, detail and mutation handlers, and pagination.

The persisted entities (`blog/models.py` is not part of the sources)
are modelled from the specification of the data model; the handlers
and the query composition are translated from `views.py` and
`forms.py`.
-/

/-- Modelled from the spec: `blog.models.Category` (models.py is not
under the sources) — id, title, slug, published flag. -/
structure Category where
  id : Nat
  slug : String
  is_published : Bool
deriving DecidableEq

/-- Modelled from the spec: `blog.models.Location` — id, name. -/
structure Location where
  id : Nat
  name : String
deriving DecidableEq

/-- Modelled from the spec: `blog.models.Post` — id, title, text,
publish timestamp, published flag, author reference, optional category
reference, optional location reference, creation timestamp.
Timestamps are integers, references are numeric ids. -/
structure Post where
  id : Nat
  title : String
  text : String
  pub_date : Int
  is_published : Bool
  author : Nat
  category : Option Nat
  location : Option Nat
  created_at : Int
deriving DecidableEq

/-- Modelled from the spec: `blog.models.Comments` — id, text, author
reference, post reference. -/
structure Comment where
  id : Nat
  author : Nat
  post : Nat
  text : String
deriving DecidableEq

/-- Modelled from the spec: `django.contrib.auth.models.User` — id,
username, superuser flag. -/
structure User where
  id : Nat
  username : String
  is_superuser : Bool
deriving DecidableEq

/-- The requester of a view: either the anonymous user or an
authenticated `User` (Django `request.user`). -/
inductive Viewer where
  | anonymous : Viewer
  | user (u : User) : Viewer
deriving DecidableEq

/-- Django model equality `request.user == someUser`: an anonymous
requester equals no `User`; authenticated users compare by primary
key. The target is given by its id. -/
def Viewer.eqUser : Viewer → Nat → Bool
  | Viewer.anonymous, _ => false
  | Viewer.user u, aid => u.id == aid

/-- `request.user.is_authenticated`. -/
def Viewer.is_authenticated : Viewer → Bool
  | Viewer.anonymous => false
  | Viewer.user _ => true

/-- `request.user.is_superuser`; false for the anonymous user. -/
def Viewer.is_superuser : Viewer → Bool
  | Viewer.anonymous => false
  | Viewer.user u => u.is_superuser

/-- The backing relational store. -/
structure DB where
  posts : List Post
  categories : List Category
  locations : List Location
  comments : List Comment
  users : List User
deriving DecidableEq

/-- `annotate(comment_count=Count('comments'))` for one post: the
number of comments whose post reference is this post. -/
def commentCount (db : DB) (p : Post) : Nat :=
  (db.comments.filter (fun c => c.post == p.id)).length

/-- A post row annotated with its comment count, as produced by the
`annotate` call in the queryset. -/
structure AnnPost where
  post : Post
  comment_count : Nat
deriving DecidableEq

/-- Annotate each post of a row list with its comment count. -/
def annotate (db : DB) (l : List Post) : List AnnPost :=
  l.map (fun p => { post := p, comment_count := commentCount db p })

/-- `order_by('-pub_date')`: sort rows by descending publish time. -/
def sortByPubDateDesc (l : List AnnPost) : List AnnPost :=
  List.insertionSort (fun a b => b.post.pub_date ≤ a.post.pub_date) l

/-- The join `category__is_published=True`: a post with no category
(NULL foreign key) or a dangling reference fails the condition. -/
def category_is_published (db : DB) (c : Option Nat) : Bool :=
  match c with
  | none => false
  | some cid =>
    match db.categories.find? (fun k => k.id == cid) with
    | none => false
    | some k => k.is_published

/-- The join `category__slug=slug`. -/
def category_slug_matches (db : DB) (c : Option Nat) (slug : String) : Bool :=
  match c with
  | none => false
  | some cid =>
    match db.categories.find? (fun k => k.id == cid) with
    | none => false
    | some k => k.slug == slug

/-- The filter `is_published=True, pub_date__lte=now,
category__is_published=True`: global public visibility of a post. -/
def publicVisible (db : DB) (now : Int) (p : Post) : Bool :=
  p.is_published && decide (p.pub_date ≤ now) && category_is_published db p.category

/-- `get_visible_posts` of views.py: annotate with comment counts,
order by descending publish time, filter to the publicly visible
posts; `now` is the wall-clock time at which the function runs. -/
def get_visible_posts (db : DB) (now : Int) : List AnnPost :=
  (sortByPubDateDesc (annotate db db.posts)).filter
    (fun ap => publicVisible db now ap.post)

/-- `visible_to_user(user, author)` of views.py: the annotated,
descending-ordered post rows, unfiltered when the requester equals the
target author, filtered to (publicly visible OR authored by the
requester) for other authenticated requesters, and to the publicly
visible rows for the anonymous requester. -/
def visible_to_user (db : DB) (now : Int) (user : Viewer) (author : Nat) :
    List AnnPost :=
  let objects := sortByPubDateDesc (annotate db db.posts)
  if user.eqUser author then objects
  else if user.is_authenticated then
    objects.filter
      (fun ap => publicVisible db now ap.post || user.eqUser ap.post.author)
  else
    objects.filter (fun ap => publicVisible db now ap.post)

/-- The post list built by the `profile` view of views.py: if the
requester is the profile owner or a superuser, all posts by the owner
(annotated, newest first, no visibility filter); otherwise
`visible_to_user` restricted to the owner. -/
def profile_post_list (db : DB) (now : Int) (viewer : Viewer)
    (profile_user : User) : List AnnPost :=
  if viewer.eqUser profile_user.id || viewer.is_superuser then
    sortByPubDateDesc
      (annotate db (db.posts.filter (fun p => p.author == profile_user.id)))
  else
    (visible_to_user db now viewer profile_user.id).filter
      (fun ap => ap.post.author == profile_user.id)

/-- `Paginator.num_pages` for a given item count and page size:
the ceiling of count / per, at least one page. -/
def Paginator_num_pages (count per : Nat) : Nat :=
  if count = 0 then 1 else (count + per - 1) / per

/-- `Paginator(l, per).get_page(page)`: a missing or non-integer page
parameter selects page 1; an integer below 1 or above the page count
is clamped to the last page; pages are 1-based slices of size per. -/
def Paginator_get_page (l : List AnnPost) (per : Nat) (page : Option Int) :
    List AnnPost :=
  let np := Paginator_num_pages l.length per
  let n : Nat :=
    match page with
    | none => 1
    | some k => if k < 1 ∨ (np : Int) < k then np else k.toNat
  (l.drop ((n - 1) * per)).take per

/-- A redirect target (`redirect(...)` / `reverse_lazy(...)`). -/
inductive Route where
  | index : Route
  | postDetail (pk : Nat) : Route
  | profile (username : String) : Route
deriving DecidableEq

/-- A handler outcome: a redirect, a rendered template, or a
not-found response (`get_object_or_404` raising Http404). -/
inductive Response where
  | redirect (r : Route) : Response
  | render (template : String) : Response
  | notFound : Response
deriving DecidableEq

/-- The shape of a response, forgetting the redirect target and the
template name. -/
def Response.kind : Response → Nat
  | Response.redirect _ => 0
  | Response.render _ => 1
  | Response.notFound => 2

/-- The HTTP request method, as far as the handlers inspect it. -/
inductive Method where
  | get : Method
  | post : Method
deriving DecidableEq

/-- `CommentsForm` of forms.py binds only the `text` field. Modelled
from the spec for the missing model field definition: a blank text is
a validation failure, anything else is valid. -/
def CommentsForm_is_valid (text : String) : Bool :=
  text != ""

/-- The data a `PostForm` submission may carry: every editable field
of `Post` except the excluded `author`, plus whatever author value the
client put into the request (which the form never reads).
Modelled from the spec for the missing model: the bound fields are
title, text, publish timestamp, published flag, category, location. -/
structure PostFormData where
  title : String
  text : String
  pub_date : Int
  is_published : Bool
  category : Option Nat
  location : Option Nat
  submitted_author : Option Nat
deriving DecidableEq

/-- `PostForm.is_valid()`. Modelled from the spec for the missing
model fields: title and text must be non-blank and the category and
location choices, when given, must exist. The submitted author value
is excluded from the form and never examined. -/
def PostForm_is_valid (db : DB) (d : PostFormData) : Bool :=
  d.title != "" && d.text != ""
    && (match d.category with
        | none => true
        | some c => db.categories.any (fun k => k.id == c))
    && (match d.location with
        | none => true
        | some l => db.locations.any (fun k => k.id == l))

/-- A fresh primary key for a row appended to a table. -/
def freshId (ids : List Nat) : Nat :=
  ids.foldr max 0 + 1

/-- Writing the bound `PostForm` fields back into a post instance
(`UpdateView` saving the form); id, author and creation time are not
form fields and keep their values. -/
def applyPostForm (p : Post) (d : PostFormData) : Post :=
  { p with title := d.title, text := d.text, pub_date := d.pub_date,
           is_published := d.is_published, category := d.category,
           location := d.location }

/-- `PostCreateView` (LoginRequiredMixin, so the requester is a
`User`): on GET render the form; on a valid POST build the post from
the form, set `author` to the requester (`form_valid`), save it and
redirect to the requester's profile (`get_success_url`); on an
invalid POST re-render the form. -/
def post_create (db : DB) (now : Int) (u : User) (m : Method)
    (d : PostFormData) : Response × DB :=
  match m with
  | Method.get => (Response.render "blog/create.html", db)
  | Method.post =>
    if PostForm_is_valid db d then
      let p : Post :=
        { id := freshId (db.posts.map (fun q => q.id)),
          title := d.title, text := d.text, pub_date := d.pub_date,
          is_published := d.is_published, author := u.id,
          category := d.category, location := d.location,
          created_at := now }
      (Response.redirect (Route.profile u.username),
       { db with posts := db.posts ++ [p] })
    else (Response.render "blog/create.html", db)

/-- `PostUpdateView` with `OnlyAuthorMixin`: resolve the post (404 if
absent); a requester who is not the author is redirected to the post
detail page (`handle_no_permission`); the author gets the form on GET,
and on POST a valid form is saved and redirects to post detail. -/
def post_update (db : DB) (viewer : Viewer) (pk : Nat) (m : Method)
    (d : PostFormData) : Response × DB :=
  match db.posts.find? (fun p => p.id == pk) with
  | none => (Response.notFound, db)
  | some post =>
    if viewer.eqUser post.author then
      match m with
      | Method.get => (Response.render "blog/create.html", db)
      | Method.post =>
        if PostForm_is_valid db d then
          let updated := db.posts.map
            (fun p => if p.id == pk then applyPostForm p d else p)
          (Response.redirect (Route.postDetail post.id),
           { db with posts := updated })
        else (Response.render "blog/create.html", db)
    else (Response.redirect (Route.postDetail post.id), db)

/-- `PostDeleteView` with `OnlyAuthorMixin`: resolve the post (404 if
absent); a requester who is not the author is redirected to the post
detail page; the author gets the confirmation template on GET, and on
POST the post is deleted and the handler redirects to the index. -/
def post_delete (db : DB) (viewer : Viewer) (pk : Nat) (m : Method) :
    Response × DB :=
  match db.posts.find? (fun p => p.id == pk) with
  | none => (Response.notFound, db)
  | some post =>
    if viewer.eqUser post.author then
      match m with
      | Method.get => (Response.render "blog/create.html", db)
      | Method.post =>
        (Response.redirect Route.index,
         { db with posts := db.posts.filter (fun p => p.id != pk) })
    else (Response.redirect (Route.postDetail post.id), db)

/-- `PostDetailView.get_object`: fetch the post by id (404 if absent);
return it unconditionally when the requester is its author, otherwise
look it up inside `visible_to_user(request.user, post.author)` (404
when it is not there). -/
def postDetail_get_object (db : DB) (now : Int) (viewer : Viewer) (pk : Nat) :
    Option Post :=
  match db.posts.find? (fun p => p.id == pk) with
  | none => none
  | some post =>
    if viewer.eqUser post.author then some post
    else
      ((visible_to_user db now viewer post.author).find?
        (fun ap => ap.post.id == pk)).map (fun ap => ap.post)

/-- The comment row `comment.save()` appends in `add_comment`: a
fresh primary key, author set to the requester, post set to the
identified post. -/
def newCommentOf (db : DB) (u : User) (post_id : Nat) (text : String) :
    Comment :=
  { id := freshId (db.comments.map (fun k => k.id)),
    author := u.id, post := post_id, text := text }

/-- `add_comment` (login_required, so the requester is a `User`):
fetch the post by id (404 if absent); on a POST with a valid
`CommentsForm`, save a comment whose author is the requester and whose
post is the fetched post, then redirect to the post detail page; in
every other case the function body falls through and returns no
response (`none`). -/
def add_comment (db : DB) (u : User) (post_id : Nat) (m : Method)
    (text : String) : Option Response × DB :=
  match db.posts.find? (fun p => p.id == post_id) with
  | none => (some Response.notFound, db)
  | some _post =>
    match m with
    | Method.post =>
      if CommentsForm_is_valid text then
        (some (Response.redirect (Route.postDetail post_id)),
         { db with comments := db.comments ++ [newCommentOf db u post_id text] })
      else (none, db)
    | Method.get => (none, db)

/-- Saving a bound `CommentsForm` with instance `comment_id`: only
the text of that comment changes. -/
def applyCommentEdit (comment_id : Nat) (text : String)
    (l : List Comment) : List Comment :=
  l.map (fun k => if k.id == comment_id then { k with text := text } else k)

/-- `edit_comment` (login_required): fetch the comment by its id alone
(404 if absent); a requester who is not the comment author is
redirected to the detail page of the post id taken from the URL; the
author gets a `CommentsForm` bound to the request data (`request.POST
or None`): with valid data the comment text is saved and the handler
redirects to the URL post id, otherwise the form is re-rendered. -/
def edit_comment (db : DB) (u : User) (post_id comment_id : Nat)
    (data : Option String) : Response × DB :=
  match db.comments.find? (fun c => c.id == comment_id) with
  | none => (Response.notFound, db)
  | some c =>
    if c.author != u.id then
      (Response.redirect (Route.postDetail post_id), db)
    else
      match data with
      | some text =>
        if CommentsForm_is_valid text then
          (Response.redirect (Route.postDetail post_id),
           { db with comments := applyCommentEdit comment_id text db.comments })
        else (Response.render "blog/comment.html", db)
      | none => (Response.render "blog/comment.html", db)

/-- `delete_comment` (login_required): fetch the comment by its id
alone (404 if absent); a requester who is not the comment author is
redirected to the detail page of the post id taken from the URL; the
author gets the confirmation template on GET, and on POST the comment
is deleted and the handler redirects to the URL post id. -/
def delete_comment (db : DB) (u : User) (post_id comment_id : Nat)
    (m : Method) : Response × DB :=
  match db.comments.find? (fun c => c.id == comment_id) with
  | none => (Response.notFound, db)
  | some c =>
    if c.author != u.id then
      (Response.redirect (Route.postDetail post_id), db)
    else
      match m with
      | Method.post =>
        (Response.redirect (Route.postDetail post_id),
         { db with comments := db.comments.filter (fun k => k.id != comment_id) })
      | Method.get => (Response.render "blog/comment.html", db)

/-- `IndexListView.get_queryset`: it returns the class attribute
`objects = get_visible_posts()`, whose time cutoff was fixed when the
class body ran (module import), not at request time. `importTime` is
that fixed moment. -/
def IndexListView_get_queryset (importTime : Int) (db : DB) : List AnnPost :=
  get_visible_posts db importTime

/-- The page of the index listing. Modelled from the spec for the
generic ListView machinery (not under the sources): all listing routes
paginate with page size 10, 1-based, clamping out-of-range pages. -/
def index_page (importTime : Int) (db : DB) (page : Option Int) : List AnnPost :=
  Paginator_get_page (IndexListView_get_queryset importTime db) 10 page

/-- `category_posts`: resolve the category by slug with
`is_published=True` (404 otherwise), filter the visible posts to the
category, and paginate with page size 10 via `Paginator.get_page`. -/
def category_posts_page (db : DB) (now : Int) (slug : String)
    (page : Option Int) : Option (List AnnPost) :=
  match db.categories.find? (fun c => c.slug == slug && c.is_published) with
  | none => none
  | some _cat =>
    some (Paginator_get_page
      ((get_visible_posts db now).filter
        (fun ap => category_slug_matches db ap.post.category slug))
      10 page)

/-- `profile`: resolve the user by username (404 otherwise), build the
post list per `profile_post_list`, and paginate with page size 10 via
`Paginator.get_page`. -/
def profile_page (db : DB) (now : Int) (viewer : Viewer)
    (username : String) (page : Option Int) : Option (List AnnPost) :=
  match db.users.find? (fun u => u.username == username) with
  | none => none
  | some pu =>
    some (Paginator_get_page (profile_post_list db now viewer pu) 10 page)

/-! Concrete fixtures used to instantiate the theorems. -/

def exAlice : User := { id := 1, username := "alice", is_superuser := false }

def exBob : User := { id := 2, username := "bob", is_superuser := true }

def exCatPub : Category := { id := 1, slug := "general", is_published := true }

def exCatHidden : Category := { id := 2, slug := "hidden", is_published := false }

def exPost1 : Post :=
  { id := 1, title := "p1", text := "t1", pub_date := 5, is_published := true,
    author := 1, category := some 1, location := none, created_at := 0 }

def exPost2 : Post :=
  { id := 2, title := "p2", text := "t2", pub_date := 20, is_published := true,
    author := 2, category := some 1, location := none, created_at := 0 }

def exPost3 : Post :=
  { id := 3, title := "p3", text := "t3", pub_date := 30, is_published := false,
    author := 1, category := some 2, location := none, created_at := 0 }

def exComment1 : Comment := { id := 1, author := 2, post := 1, text := "hi" }

def exDB : DB :=
  { posts := [exPost1, exPost2, exPost3],
    categories := [exCatPub, exCatHidden],
    locations := [],
    comments := [exComment1],
    users := [exAlice, exBob] }

def exForm : PostFormData :=
  { title := "t", text := "x", pub_date := 7, is_published := true,
    category := some 1, location := none, submitted_author := some 999 }

def exPosts25 : List Post :=
  (List.range 25).map (fun i =>
    { id := i + 10, title := "p", text := "t", pub_date := (i : Int),
      is_published := true, author := 1, category := some 1,
      location := none, created_at := 0 })

def exDB25 : DB :=
  { posts := exPosts25, categories := [exCatPub], locations := [],
    comments := [], users := [exAlice, exBob] }

/-! Helper lemmas about the query building blocks. -/

theorem mem_sortByPubDateDesc {l : List AnnPost} {x : AnnPost} :
    x ∈ sortByPubDateDesc l ↔ x ∈ l :=
  (List.perm_insertionSort _ l).mem_iff

theorem sorted_sortByPubDateDesc (l : List AnnPost) :
    (sortByPubDateDesc l).Sorted (fun a b => b.post.pub_date ≤ a.post.pub_date) := by
  haveI : IsTotal AnnPost (fun a b => b.post.pub_date ≤ a.post.pub_date) :=
    ⟨fun a b => le_total b.post.pub_date a.post.pub_date⟩
  haveI : IsTrans AnnPost (fun a b => b.post.pub_date ≤ a.post.pub_date) :=
    ⟨fun _ _ _ h1 h2 => le_trans h2 h1⟩
  exact List.sorted_insertionSort _ l

theorem mem_annotate {db : DB} {l : List Post} {ap : AnnPost} :
    ap ∈ annotate db l ↔
      ap.post ∈ l ∧ ap.comment_count = commentCount db ap.post := by
  constructor
  · intro h
    rcases List.mem_map.mp h with ⟨p, hp, he⟩
    cases he
    exact ⟨hp, rfl⟩
  · rintro ⟨h1, h2⟩
    refine List.mem_map.mpr ⟨ap.post, h1, ?_⟩
    cases ap with
    | mk p c =>
      simp only at h2
      rw [h2]

theorem mem_objects {db : DB} {ap : AnnPost} :
    ap ∈ sortByPubDateDesc (annotate db db.posts) ↔
      ap.post ∈ db.posts ∧ ap.comment_count = commentCount db ap.post := by
  rw [mem_sortByPubDateDesc, mem_annotate]

theorem visible_to_user_eq_author {db : DB} {now : Int} {viewer : Viewer}
    {author : Nat} (h : viewer.eqUser author = true) :
    visible_to_user db now viewer author =
      sortByPubDateDesc (annotate db db.posts) := by
  simp [visible_to_user, h]

theorem visible_to_user_auth {db : DB} {now : Int} {u : User} {author : Nat}
    (h : (Viewer.user u).eqUser author = false) :
    visible_to_user db now (Viewer.user u) author =
      (sortByPubDateDesc (annotate db db.posts)).filter
        (fun ap =>
          publicVisible db now ap.post || (Viewer.user u).eqUser ap.post.author) := by
  simp [visible_to_user, h, Viewer.is_authenticated]

theorem visible_to_user_anon {db : DB} {now : Int} {author : Nat} :
    visible_to_user db now Viewer.anonymous author =
      (sortByPubDateDesc (annotate db db.posts)).filter
        (fun ap => publicVisible db now ap.post) := by
  simp [visible_to_user, Viewer.eqUser, Viewer.is_authenticated]

/-- C1: the visibility filter returns all posts with no restriction
when the viewer equals the target author; for an authenticated viewer
distinct from the author exactly the publicly visible posts or those
authored by the viewer; for the anonymous viewer exactly the publicly
visible posts — always ordered by descending publish time and
annotated with comment counts; and in the profile listing a superuser
viewer bypasses the filter and sees all posts by the target author. -/
theorem visible_to_user_correct (db : DB) (now : Int) (viewer : Viewer)
    (author : Nat) :
    (∀ ap ∈ visible_to_user db now viewer author,
       ap.comment_count = commentCount db ap.post)
    ∧ (visible_to_user db now viewer author).Sorted
        (fun a b => b.post.pub_date ≤ a.post.pub_date)
    ∧ (viewer.eqUser author = true →
        ∀ ap, ap ∈ visible_to_user db now viewer author ↔
          ap.post ∈ db.posts ∧ ap.comment_count = commentCount db ap.post)
    ∧ (∀ u : User, viewer = Viewer.user u → viewer.eqUser author = false →
        ∀ ap, ap ∈ visible_to_user db now viewer author ↔
          ap.post ∈ db.posts ∧ ap.comment_count = commentCount db ap.post
            ∧ (publicVisible db now ap.post = true ∨ ap.post.author = u.id))
    ∧ (viewer = Viewer.anonymous →
        ∀ ap, ap ∈ visible_to_user db now viewer author ↔
          ap.post ∈ db.posts ∧ ap.comment_count = commentCount db ap.post
            ∧ publicVisible db now ap.post = true)
    ∧ (∀ target : User, viewer.is_superuser = true →
        ∀ ap, ap ∈ profile_post_list db now viewer target ↔
          ap.post ∈ db.posts ∧ ap.post.author = target.id
            ∧ ap.comment_count = commentCount db ap.post) := by
  have hmem : ∀ ap, ap ∈ visible_to_user db now viewer author →
      ap.post ∈ db.posts ∧ ap.comment_count = commentCount db ap.post := by
    intro ap h
    unfold visible_to_user at h
    split at h
    · exact mem_objects.mp h
    · split at h
      · exact mem_objects.mp (List.mem_filter.mp h).1
      · exact mem_objects.mp (List.mem_filter.mp h).1
  refine ⟨fun ap h => (hmem ap h).2, ?_, ?_, ?_, ?_, ?_⟩
  · unfold visible_to_user
    split
    · exact sorted_sortByPubDateDesc _
    · split
      · exact List.Pairwise.filter _ (sorted_sortByPubDateDesc _)
      · exact List.Pairwise.filter _ (sorted_sortByPubDateDesc _)
  · intro h ap
    rw [visible_to_user_eq_author h, mem_objects]
  · rintro u rfl h ap
    rw [visible_to_user_auth h, List.mem_filter, mem_objects]
    simp only [Viewer.eqUser, Bool.or_eq_true, beq_iff_eq, eq_comm (a := u.id)]
    tauto
  · rintro rfl ap
    rw [visible_to_user_anon, List.mem_filter, mem_objects]
    tauto
  · intro target hsu ap
    unfold profile_post_list
    rw [if_pos (by rw [hsu, Bool.or_true]), mem_sortByPubDateDesc, mem_annotate,
        List.mem_filter]
    simp only [beq_iff_eq]
    tauto

/-- Instantiation of C1: with the concrete store, the authenticated
viewer alice, distinct from author bob, sees the public post of
alice even through the filter for author bob, and superuser bob sees
the unpublished post of alice in the profile listing of alice. -/
theorem visible_to_user_correct_witness :
    ((⟨exPost1, 1⟩ : AnnPost) ∈ visible_to_user exDB 10 (Viewer.user exAlice) 2)
    ∧ ((⟨exPost3, 0⟩ : AnnPost) ∈ profile_post_list exDB 10 (Viewer.user exBob) exAlice) :=
  ⟨((visible_to_user_correct exDB 10 (Viewer.user exAlice) 2).2.2.2.1 exAlice rfl
      (by decide) ⟨exPost1, 1⟩).mpr (by decide),
   ((visible_to_user_correct exDB 10 (Viewer.user exBob) 2).2.2.2.2.2 exAlice
      (by decide) ⟨exPost3, 0⟩).mpr (by decide)⟩

/-- C2 (code bug): `IndexListView` stores `objects =
get_visible_posts()` as a class attribute, so the publish-time cutoff
is the import-time clock value, not the clock value of the request.
At import time 0 and request time 10, the post `exPost1` (published at
time 5 in a published category) is publicly visible at request time
and belongs to the set the claim prescribes, yet the queryset the view
serves does not contain it. -/
theorem indexListView_stale_cutoff_at_failing_input :
    publicVisible exDB 10 exPost1 = true
    ∧ (⟨exPost1, 1⟩ : AnnPost) ∈ get_visible_posts exDB 10
    ∧ ∀ ap ∈ IndexListView_get_queryset 0 exDB, ap.post ≠ exPost1 := by
  decide

/-- Rows of `visible_to_user` are rows of the post table carrying
their comment count. -/
theorem mem_visible_posts {db : DB} {now : Int} {viewer : Viewer}
    {author : Nat} {ap : AnnPost}
    (h : ap ∈ visible_to_user db now viewer author) :
    ap.post ∈ db.posts ∧ ap.comment_count = commentCount db ap.post := by
  unfold visible_to_user at h
  split at h
  · exact mem_objects.mp h
  · split at h
    · exact mem_objects.mp (List.mem_filter.mp h).1
    · exact mem_objects.mp (List.mem_filter.mp h).1

/-- With primary keys unique, looking a post up by id finds exactly
the row with that id. -/
theorem find_post_by_id {db : DB} {pk : Nat} {post : Post}
    (hid : (db.posts.map (fun p => p.id)).Nodup)
    (hmem : post ∈ db.posts) (hpk : post.id = pk) :
    db.posts.find? (fun p => p.id == pk) = some post := by
  rcases hq : db.posts.find? (fun p => p.id == pk) with _ | q
  · exfalso
    have hs : (db.posts.find? (fun p => p.id == pk)).isSome :=
      List.find?_isSome.mpr ⟨post, hmem, by simp [hpk]⟩
    rw [hq] at hs
    simp at hs
  · have hqm := List.mem_of_find?_eq_some hq
    have hqp := List.find?_some hq
    have : q = post := by
      refine List.inj_on_of_nodup_map hid hqm hmem ?_
      simp only [beq_iff_eq] at hqp
      simp [hqp, hpk]
    rw [this] at hq
    exact hq

/-- With primary keys unique, looking a post up by id inside the
visible set finds its annotated row exactly when that row is in the
visible set. -/
theorem find_visible_by_id {db : DB} {now : Int} {viewer : Viewer}
    {author : Nat} {pk : Nat} {post : Post}
    (hid : (db.posts.map (fun p => p.id)).Nodup)
    (hmem : post ∈ db.posts) (hpk : post.id = pk) :
    (visible_to_user db now viewer author).find? (fun ap => ap.post.id == pk)
      = if (⟨post, commentCount db post⟩ : AnnPost) ∈
            visible_to_user db now viewer author
        then some ⟨post, commentCount db post⟩ else none := by
  by_cases h : (⟨post, commentCount db post⟩ : AnnPost) ∈
      visible_to_user db now viewer author
  · rw [if_pos h]
    have hs : ((visible_to_user db now viewer author).find?
        (fun ap => ap.post.id == pk)).isSome :=
      List.find?_isSome.mpr ⟨⟨post, commentCount db post⟩, h, by simp [hpk]⟩
    rcases hq : (visible_to_user db now viewer author).find?
        (fun ap => ap.post.id == pk) with _ | ap0
    · rw [hq] at hs
      simp at hs
    · have hm0 := List.mem_of_find?_eq_some hq
      have hp0 := List.find?_some hq
      simp only [beq_iff_eq] at hp0
      have hvp := mem_visible_posts hm0
      have hpe : ap0.post = post :=
        List.inj_on_of_nodup_map hid hvp.1 hmem (by rw [hp0, hpk])
      have : ap0 = ⟨post, commentCount db post⟩ := by
        cases ap0 with
        | mk q c =>
          simp only at hpe hvp
          subst hpe
          rw [hvp.2]
      rw [this] at hq
      exact hq
  · rw [if_neg h]
    rw [List.find?_eq_none]
    intro ap hap hbe
    simp only [beq_iff_eq] at hbe
    have hvp := mem_visible_posts hap
    have hpe : ap.post = post :=
      List.inj_on_of_nodup_map hid hvp.1 hmem (by rw [hbe, hpk])
    apply h
    have : ap = ⟨post, commentCount db post⟩ := by
      cases ap with
      | mk q c =>
        simp only at hpe hvp
        subst hpe
        rw [hvp.2]
    rw [← this]
    exact hap

/-- C3: the detail handler returns the post unconditionally when the
requester is its author; otherwise it returns the post exactly when
the post lies in the visibility filter result for that viewer and
author; and it responds not-found exactly when the post does not exist
or falls outside that visible set. Primary keys are assumed unique. -/
theorem postDetail_get_object_correct (db : DB) (now : Int) (viewer : Viewer)
    (pk : Nat) (hid : (db.posts.map (fun p => p.id)).Nodup) :
    (∀ post ∈ db.posts, post.id = pk → viewer.eqUser post.author = true →
       postDetail_get_object db now viewer pk = some post)
    ∧ (∀ post ∈ db.posts, post.id = pk → viewer.eqUser post.author = false →
       (postDetail_get_object db now viewer pk = some post ↔
         (⟨post, commentCount db post⟩ : AnnPost) ∈
           visible_to_user db now viewer post.author))
    ∧ (postDetail_get_object db now viewer pk = none ↔
       (∀ post ∈ db.posts, post.id ≠ pk)
       ∨ ∃ post ∈ db.posts, post.id = pk ∧ viewer.eqUser post.author = false ∧
           (⟨post, commentCount db post⟩ : AnnPost) ∉
             visible_to_user db now viewer post.author) := by
  have hred : ∀ post ∈ db.posts, post.id = pk →
      postDetail_get_object db now viewer pk
        = if viewer.eqUser post.author = true then some post
          else ((visible_to_user db now viewer post.author).find?
              (fun ap => ap.post.id == pk)).map (fun ap => ap.post) := by
    intro post hmem hpk
    unfold postDetail_get_object
    rw [find_post_by_id hid hmem hpk]
  refine ⟨?_, ?_, ?_⟩
  · intro post hmem hpk hauth
    rw [hred post hmem hpk, if_pos hauth]
  · intro post hmem hpk hauth
    rw [hred post hmem hpk, if_neg (by simp [hauth]),
        @find_visible_by_id db now viewer post.author pk post hid hmem hpk]
    by_cases h : (⟨post, commentCount db post⟩ : AnnPost) ∈
        visible_to_user db now viewer post.author
    · rw [if_pos h]
      simp [h]
    · rw [if_neg h]
      simp [h]
  · rcases hq : db.posts.find? (fun p => p.id == pk) with _ | post0
    · have hnone : postDetail_get_object db now viewer pk = none := by
        unfold postDetail_get_object
        rw [hq]
      rw [hnone]
      simp only [true_iff]
      left
      intro p hp hpe
      have := List.find?_eq_none.mp hq p hp
      simp [hpe] at this
    · have hm0 := List.mem_of_find?_eq_some hq
      have hpk0 : post0.id = pk := by simpa using List.find?_some hq
      have huniq : ∀ p ∈ db.posts, p.id = pk → p = post0 := fun p hp hpe =>
        List.inj_on_of_nodup_map hid hp hm0 (by rw [hpe, hpk0])
      rw [hred post0 hm0 hpk0]
      by_cases hauth : viewer.eqUser post0.author = true
      · rw [if_pos hauth]
        refine iff_of_false (by simp) ?_
        rintro (hall | ⟨p, hp, hpe, hfa, _⟩)
        · exact hall post0 hm0 hpk0
        · rw [huniq p hp hpe] at hfa
          rw [hauth] at hfa
          exact Bool.noConfusion hfa
      · rw [if_neg hauth]
        rw [Bool.not_eq_true] at hauth
        rw [@find_visible_by_id db now viewer post0.author pk post0 hid hm0
            hpk0]
        by_cases h : (⟨post0, commentCount db post0⟩ : AnnPost) ∈
            visible_to_user db now viewer post0.author
        · rw [if_pos h]
          refine iff_of_false (by simp) ?_
          rintro (hall | ⟨p, hp, hpe, _, hnv⟩)
          · exact hall post0 hm0 hpk0
          · rw [huniq p hp hpe] at hnv
            exact hnv h
        · rw [if_neg h]
          refine iff_of_true (by simp) ?_
          exact Or.inr ⟨post0, hm0, hpk0, hauth, h⟩

/-- Instantiation of C3: the anonymous requester gets a not-found
response for the unpublished post 3, and its author alice gets the
post itself. -/
theorem postDetail_get_object_correct_witness :
    postDetail_get_object exDB 10 Viewer.anonymous 3 = none
    ∧ postDetail_get_object exDB 10 (Viewer.user exAlice) 3 = some exPost3 :=
  ⟨(postDetail_get_object_correct exDB 10 Viewer.anonymous 3 (by decide)).2.2.mpr
     (Or.inr ⟨exPost3, by decide, rfl, by decide, by decide⟩),
   (postDetail_get_object_correct exDB 10 (Viewer.user exAlice) 3
      (by decide)).1 exPost3 (by decide) rfl (by decide)⟩

/-! Reduction lemmas giving each handler's outcome per branch. -/

theorem edit_comment_missing {db : DB} {u : User} {post_id comment_id : Nat}
    {d : Option String}
    (hq : db.comments.find? (fun c => c.id == comment_id) = none) :
    edit_comment db u post_id comment_id d = (Response.notFound, db) := by
  unfold edit_comment
  rw [hq]

theorem edit_comment_not_author {db : DB} {u : User}
    {post_id comment_id : Nat} {d : Option String} {c : Comment}
    (hq : db.comments.find? (fun k => k.id == comment_id) = some c)
    (ha : (c.author != u.id) = true) :
    edit_comment db u post_id comment_id d
      = (Response.redirect (Route.postDetail post_id), db) := by
  unfold edit_comment
  split
  next heq => rw [hq] at heq; exact Option.noConfusion heq
  next c0 heq =>
    rw [hq] at heq
    injection heq with h
    subst h
    rw [if_pos ha]

theorem edit_comment_author_valid {db : DB} {u : User}
    {post_id comment_id : Nat} {text : String} {c : Comment}
    (hq : db.comments.find? (fun k => k.id == comment_id) = some c)
    (ha : (c.author != u.id) = false)
    (hv : CommentsForm_is_valid text = true) :
    edit_comment db u post_id comment_id (some text)
      = (Response.redirect (Route.postDetail post_id),
         { db with comments := applyCommentEdit comment_id text db.comments }) := by
  unfold edit_comment
  split
  next heq => rw [hq] at heq; exact Option.noConfusion heq
  next c0 heq =>
    rw [hq] at heq
    injection heq with h
    subst h
    rw [if_neg (by simp [ha])]
    simp only []
    rw [if_pos hv]

theorem edit_comment_author_render {db : DB} {u : User}
    {post_id comment_id : Nat} {d : Option String} {c : Comment}
    (hq : db.comments.find? (fun k => k.id == comment_id) = some c)
    (ha : (c.author != u.id) = false)
    (hnv : ∀ text, d = some text → CommentsForm_is_valid text = false) :
    edit_comment db u post_id comment_id d
      = (Response.render "blog/comment.html", db) := by
  unfold edit_comment
  split
  next heq => rw [hq] at heq; exact Option.noConfusion heq
  next c0 heq =>
    rw [hq] at heq
    injection heq with h
    subst h
    rw [if_neg (by simp [ha])]
    cases d with
    | none => rfl
    | some text =>
      simp only []
      rw [if_neg (by simp [hnv text rfl])]

theorem delete_comment_missing {db : DB} {u : User}
    {post_id comment_id : Nat} {m : Method}
    (hq : db.comments.find? (fun c => c.id == comment_id) = none) :
    delete_comment db u post_id comment_id m = (Response.notFound, db) := by
  unfold delete_comment
  rw [hq]

theorem delete_comment_not_author {db : DB} {u : User}
    {post_id comment_id : Nat} {m : Method} {c : Comment}
    (hq : db.comments.find? (fun k => k.id == comment_id) = some c)
    (ha : (c.author != u.id) = true) :
    delete_comment db u post_id comment_id m
      = (Response.redirect (Route.postDetail post_id), db) := by
  unfold delete_comment
  split
  next heq => rw [hq] at heq; exact Option.noConfusion heq
  next c0 heq =>
    rw [hq] at heq
    injection heq with h
    subst h
    rw [if_pos ha]

theorem delete_comment_author_post {db : DB} {u : User}
    {post_id comment_id : Nat} {c : Comment}
    (hq : db.comments.find? (fun k => k.id == comment_id) = some c)
    (ha : (c.author != u.id) = false) :
    delete_comment db u post_id comment_id Method.post
      = (Response.redirect (Route.postDetail post_id),
         { db with comments := db.comments.filter (fun k => k.id != comment_id) }) := by
  unfold delete_comment
  split
  next heq => rw [hq] at heq; exact Option.noConfusion heq
  next c0 heq =>
    rw [hq] at heq
    injection heq with h
    subst h
    rw [if_neg (by simp [ha])]

theorem delete_comment_author_get {db : DB} {u : User}
    {post_id comment_id : Nat} {c : Comment}
    (hq : db.comments.find? (fun k => k.id == comment_id) = some c)
    (ha : (c.author != u.id) = false) :
    delete_comment db u post_id comment_id Method.get
      = (Response.render "blog/comment.html", db) := by
  unfold delete_comment
  split
  next heq => rw [hq] at heq; exact Option.noConfusion heq
  next c0 heq =>
    rw [hq] at heq
    injection heq with h
    subst h
    rw [if_neg (by simp [ha])]

theorem add_comment_missing {db : DB} {u : User} {post_id : Nat}
    {m : Method} {text : String}
    (hq : db.posts.find? (fun p => p.id == post_id) = none) :
    add_comment db u post_id m text = (some Response.notFound, db) := by
  unfold add_comment
  rw [hq]

theorem add_comment_post_valid {db : DB} {u : User} {post_id : Nat}
    {text : String} {post : Post}
    (hq : db.posts.find? (fun p => p.id == post_id) = some post)
    (hv : CommentsForm_is_valid text = true) :
    add_comment db u post_id Method.post text
      = (some (Response.redirect (Route.postDetail post_id)),
         { db with comments := db.comments ++ [newCommentOf db u post_id text] }) := by
  unfold add_comment
  rw [hq, if_pos hv]

theorem add_comment_post_invalid {db : DB} {u : User} {post_id : Nat}
    {text : String} {post : Post}
    (hq : db.posts.find? (fun p => p.id == post_id) = some post)
    (hv : CommentsForm_is_valid text = false) :
    add_comment db u post_id Method.post text = (none, db) := by
  unfold add_comment
  rw [hq, if_neg (by simp [hv])]

theorem add_comment_get {db : DB} {u : User} {post_id : Nat}
    {text : String} {post : Post}
    (hq : db.posts.find? (fun p => p.id == post_id) = some post) :
    add_comment db u post_id Method.get text = (none, db) := by
  unfold add_comment
  rw [hq]

theorem post_update_not_author {db : DB} {viewer : Viewer} {pk : Nat}
    {m : Method} {d : PostFormData} {post : Post}
    (hq : db.posts.find? (fun p => p.id == pk) = some post)
    (ha : viewer.eqUser post.author = false) :
    post_update db viewer pk m d
      = (Response.redirect (Route.postDetail post.id), db) := by
  unfold post_update
  split
  next heq => rw [hq] at heq; exact Option.noConfusion heq
  next p0 heq =>
    rw [hq] at heq
    injection heq with h
    subst h
    rw [if_neg (by simp [ha])]

theorem post_delete_not_author {db : DB} {viewer : Viewer} {pk : Nat}
    {m : Method} {post : Post}
    (hq : db.posts.find? (fun p => p.id == pk) = some post)
    (ha : viewer.eqUser post.author = false) :
    post_delete db viewer pk m
      = (Response.redirect (Route.postDetail post.id), db) := by
  unfold post_delete
  split
  next heq => rw [hq] at heq; exact Option.noConfusion heq
  next p0 heq =>
    rw [hq] at heq
    injection heq with h
    subst h
    rw [if_neg (by simp [ha])]

/-- C4: for every existing post or comment and every authenticated
requester who is not its author, any edit or delete attempt returns a
redirect to the post detail page — never an error status — and leaves
the store unchanged. -/
theorem unauthorized_mutation_redirects (db : DB) (u : User) :
    (∀ (pk : Nat) (post : Post) (m : Method) (d : PostFormData),
       db.posts.find? (fun p => p.id == pk) = some post →
       post.author ≠ u.id →
       post_update db (Viewer.user u) pk m d
         = (Response.redirect (Route.postDetail post.id), db))
    ∧ (∀ (pk : Nat) (post : Post) (m : Method),
       db.posts.find? (fun p => p.id == pk) = some post →
       post.author ≠ u.id →
       post_delete db (Viewer.user u) pk m
         = (Response.redirect (Route.postDetail post.id), db))
    ∧ (∀ (post_id comment_id : Nat) (c : Comment) (d : Option String),
       db.comments.find? (fun k => k.id == comment_id) = some c →
       c.author ≠ u.id →
       edit_comment db u post_id comment_id d
         = (Response.redirect (Route.postDetail post_id), db))
    ∧ (∀ (post_id comment_id : Nat) (c : Comment) (m : Method),
       db.comments.find? (fun k => k.id == comment_id) = some c →
       c.author ≠ u.id →
       delete_comment db u post_id comment_id m
         = (Response.redirect (Route.postDetail post_id), db)) := by
  refine ⟨?_, ?_, ?_, ?_⟩
  · intro pk post m d hq hne
    refine post_update_not_author hq ?_
    simp only [Viewer.eqUser, beq_eq_false_iff_ne]
    exact fun hh => hne hh.symm
  · intro pk post m hq hne
    refine post_delete_not_author hq ?_
    simp only [Viewer.eqUser, beq_eq_false_iff_ne]
    exact fun hh => hne hh.symm
  · intro post_id comment_id c d hq hne
    refine edit_comment_not_author hq ?_
    simpa using hne
  · intro post_id comment_id c m hq hne
    refine delete_comment_not_author hq ?_
    simpa using hne

/-- Instantiation of C4: alice, who does not own comment 1, fails to
delete it and is redirected; bob, who does not own post 1, fails to
edit it and is redirected; the store is untouched both times. -/
theorem unauthorized_mutation_redirects_witness :
    delete_comment exDB exAlice 1 1 Method.post
      = (Response.redirect (Route.postDetail 1), exDB)
    ∧ post_update exDB (Viewer.user exBob) 1 Method.post exForm
      = (Response.redirect (Route.postDetail 1), exDB) :=
  ⟨(unauthorized_mutation_redirects exDB exAlice).2.2.2 1 1 exComment1
     Method.post (by decide) (by decide),
   (unauthorized_mutation_redirects exDB exBob).1 1 exPost1
     Method.post exForm (by decide) (by decide)⟩

/-- C5: a valid post-creation submission by an authenticated user
stores exactly one new post whose author is that user — whatever
author value the client put in the form data — and redirects to the
profile of the requester. -/
theorem post_create_sets_author (db : DB) (now : Int) (u : User)
    (d : PostFormData) (hv : PostForm_is_valid db d = true) :
    (∃ p : Post, post_create db now u Method.post d
        = (Response.redirect (Route.profile u.username),
           { db with posts := db.posts ++ [p] })
      ∧ p.author = u.id)
    ∧ ∀ a : Option Nat,
        post_create db now u Method.post { d with submitted_author := a }
          = post_create db now u Method.post d := by
  constructor
  · have hstep : post_create db now u Method.post d
        = (Response.redirect (Route.profile u.username),
           { db with posts := db.posts ++
              [{ id := freshId (db.posts.map (fun q => q.id)),
                 title := d.title, text := d.text, pub_date := d.pub_date,
                 is_published := d.is_published, author := u.id,
                 category := d.category, location := d.location,
                 created_at := now }] }) := by
      unfold post_create
      rw [if_pos hv]
    exact ⟨_, hstep, rfl⟩
  · intro a
    rfl

/-- Instantiation of C5: alice submits a form carrying author value
999; the stored post has author 1 (alice) and the response redirects
to the profile of alice. -/
theorem post_create_sets_author_witness :
    ∃ p : Post, post_create exDB 10 exAlice Method.post exForm
        = (Response.redirect (Route.profile "alice"),
           { exDB with posts := exDB.posts ++ [p] })
      ∧ p.author = 1 :=
  (post_create_sets_author exDB 10 exAlice exForm (by decide)).1

/-- C6: no comment flow ever changes the author or post reference of a
comment that already exists: the edit flow rewrites at most the text
of its target, deletion only removes rows, and adding only appends. -/
theorem comment_refs_immutable (db : DB) (u : User) (post_id comment_id : Nat)
    (d : Option String) (m : Method) (text : String) :
    (∀ c' ∈ (edit_comment db u post_id comment_id d).2.comments,
       ∃ c ∈ db.comments, c.id = c'.id ∧ c.author = c'.author ∧ c.post = c'.post)
    ∧ (∀ c' ∈ (delete_comment db u post_id comment_id m).2.comments,
       c' ∈ db.comments)
    ∧ (∀ c ∈ db.comments, c ∈ (add_comment db u post_id m text).2.comments) := by
  refine ⟨?_, ?_, ?_⟩
  · rcases hq : db.comments.find? (fun k => k.id == comment_id) with _ | c
    · rw [edit_comment_missing hq]
      exact fun c' hc' => ⟨c', hc', rfl, rfl, rfl⟩
    · by_cases ha : (c.author != u.id) = true
      · rw [edit_comment_not_author hq ha]
        exact fun c' hc' => ⟨c', hc', rfl, rfl, rfl⟩
      · rw [Bool.not_eq_true] at ha
        cases d with
        | none =>
          rw [edit_comment_author_render hq ha (fun t ht => Option.noConfusion ht)]
          exact fun c' hc' => ⟨c', hc', rfl, rfl, rfl⟩
        | some t =>
          by_cases hv : CommentsForm_is_valid t = true
          · rw [edit_comment_author_valid hq ha hv]
            intro c' hc'
            simp only [applyCommentEdit] at hc'
            rcases List.mem_map.mp hc' with ⟨c0, hc0, rfl⟩
            refine ⟨c0, hc0, ?_, ?_, ?_⟩ <;>
              by_cases hk : (c0.id == comment_id) = true <;>
              simp [hk]
          · rw [Bool.not_eq_true] at hv
            rw [edit_comment_author_render hq ha (fun t0 ht0 => by
              injection ht0 with h
              rw [← h]
              exact hv)]
            exact fun c' hc' => ⟨c', hc', rfl, rfl, rfl⟩
  · rcases hq : db.comments.find? (fun k => k.id == comment_id) with _ | c
    · rw [delete_comment_missing hq]
      exact fun c' hc' => hc'
    · by_cases ha : (c.author != u.id) = true
      · rw [delete_comment_not_author hq ha]
        exact fun c' hc' => hc'
      · rw [Bool.not_eq_true] at ha
        cases m with
        | post =>
          rw [delete_comment_author_post hq ha]
          exact fun c' hc' => (List.mem_filter.mp hc').1
        | get =>
          rw [delete_comment_author_get hq ha]
          exact fun c' hc' => hc'
  · rcases hq : db.posts.find? (fun p => p.id == post_id) with _ | p0
    · rw [add_comment_missing hq]
      exact fun c hc => hc
    · cases m with
      | get =>
        rw [add_comment_get hq]
        exact fun c hc => hc
      | post =>
        by_cases hv : CommentsForm_is_valid text = true
        · rw [add_comment_post_valid hq hv]
          exact fun c hc => List.mem_append_left _ hc
        · rw [Bool.not_eq_true] at hv
          rw [add_comment_post_invalid hq hv]
          exact fun c hc => hc

/-- Instantiation of C6: after bob edits the text of his comment 1,
the comment in the store still descends from a stored comment with the
same id, author and post. -/
theorem comment_refs_immutable_witness :
    ∃ c ∈ exDB.comments, c.id = 1 ∧ c.author = 2 ∧ c.post = 1 :=
  (comment_refs_immutable exDB exBob 1 1 (some "new") Method.post "z").1
    ⟨1, 2, 1, "new"⟩ (by decide)

/-- C7: the add-comment handler answers not-found exactly when no post
with the given id exists; a valid POST on an existing post appends
exactly one comment, authored by the requester and attached to that
post, and redirects to the post detail page; a non-POST request on an
existing post produces no response at all. -/
theorem add_comment_contract (db : DB) (u : User) (post_id : Nat)
    (m : Method) (text : String) :
    ((add_comment db u post_id m text).1 = some Response.notFound ↔
       db.posts.find? (fun p => p.id == post_id) = none)
    ∧ (∀ post : Post, db.posts.find? (fun p => p.id == post_id) = some post →
        m = Method.post → CommentsForm_is_valid text = true →
        add_comment db u post_id m text
          = (some (Response.redirect (Route.postDetail post_id)),
             { db with comments := db.comments ++ [newCommentOf db u post_id text] }))
    ∧ (newCommentOf db u post_id text).author = u.id
    ∧ (newCommentOf db u post_id text).post = post_id
    ∧ (∀ post : Post, db.posts.find? (fun p => p.id == post_id) = some post →
        m ≠ Method.post → (add_comment db u post_id m text).1 = none) := by
  refine ⟨?_, ?_, rfl, rfl, ?_⟩
  · constructor
    · intro h1
      rcases hq : db.posts.find? (fun p => p.id == post_id) with _ | post
      · exact hq
      · exfalso
        cases m with
        | get =>
          rw [add_comment_get hq] at h1
          exact Option.noConfusion h1
        | post =>
          by_cases hv : CommentsForm_is_valid text = true
          · rw [add_comment_post_valid hq hv] at h1
            injection h1 with h2
            exact Response.noConfusion h2
          · rw [Bool.not_eq_true] at hv
            rw [add_comment_post_invalid hq hv] at h1
            exact Option.noConfusion h1
    · intro hq
      rw [add_comment_missing hq]
  · intro post hq hm hv
    subst hm
    exact add_comment_post_valid hq hv
  · intro post hq hm
    cases m with
    | post => exact absurd rfl hm
    | get => rw [add_comment_get hq]

/-- Instantiation of C7: bob posts a valid comment on the existing
post 1; exactly one comment is appended, attached to post 1 and
authored by bob, and the handler redirects to the post detail page. -/
theorem add_comment_contract_witness :
    add_comment exDB exBob 1 Method.post "again"
      = (some (Response.redirect (Route.postDetail 1)),
         { exDB with comments := exDB.comments ++ [newCommentOf exDB exBob 1 "again"] }) :=
  (add_comment_contract exDB exBob 1 Method.post "again").2.1 exPost1
    (by decide) rfl (by decide)

/-- C9: the add-comment handler applies no visibility check: any
existing post — unpublished, future-dated, in an unpublished category,
not authored by the requester — accepts a valid POST submission, which
appends a comment by the requester on that post and redirects to the
post detail page. -/
theorem add_comment_ignores_visibility (db : DB) (u : User) (p : Post)
    (text : String) (hp : p ∈ db.posts)
    (hv : CommentsForm_is_valid text = true) :
    add_comment db u p.id Method.post text
      = (some (Response.redirect (Route.postDetail p.id)),
         { db with comments := db.comments ++ [newCommentOf db u p.id text] })
    ∧ (newCommentOf db u p.id text).author = u.id
    ∧ (newCommentOf db u p.id text).post = p.id := by
  have hs : (db.posts.find? (fun q => q.id == p.id)).isSome :=
    List.find?_isSome.mpr ⟨p, hp, by simp⟩
  rcases hq : db.posts.find? (fun q => q.id == p.id) with _ | q
  · rw [hq] at hs
    simp at hs
  · exact ⟨add_comment_post_valid hq hv, rfl, rfl⟩

/-- Instantiation of C9: post 3 is unpublished, dated in the future,
sits in an unpublished category and belongs to alice; still, a valid
POST by bob attaches a comment to it and redirects. -/
theorem add_comment_ignores_visibility_witness :
    (exPost3.is_published = false ∧ publicVisible exDB 10 exPost3 = false
      ∧ exPost3.author ≠ exBob.id)
    ∧ add_comment exDB exBob 3 Method.post "yo"
        = (some (Response.redirect (Route.postDetail 3)),
           { exDB with comments := exDB.comments ++ [newCommentOf exDB exBob 3 "yo"] }) :=
  ⟨by decide,
   (add_comment_ignores_visibility exDB exBob exPost3 "yo" (by decide)
      (by decide)).1⟩

/-- C10: the comment edit and delete handlers never compare the
comment against the post id in the URL: the resulting store and the
response shape are identical for any URL post id, and every redirect
they issue targets the detail page of the URL post id, whatever post
the comment actually belongs to. -/
theorem comment_handlers_ignore_url_post_id (db : DB) (u : User)
    (x x' comment_id : Nat) (d : Option String) (m : Method) :
    ((edit_comment db u x comment_id d).2
       = (edit_comment db u x' comment_id d).2)
    ∧ (Response.kind (edit_comment db u x comment_id d).1
       = Response.kind (edit_comment db u x' comment_id d).1)
    ∧ (∀ r, (edit_comment db u x comment_id d).1 = Response.redirect r →
        r = Route.postDetail x)
    ∧ ((delete_comment db u x comment_id m).2
       = (delete_comment db u x' comment_id m).2)
    ∧ (Response.kind (delete_comment db u x comment_id m).1
       = Response.kind (delete_comment db u x' comment_id m).1)
    ∧ (∀ r, (delete_comment db u x comment_id m).1 = Response.redirect r →
        r = Route.postDetail x) := by
  have hedit : ((edit_comment db u x comment_id d).2
        = (edit_comment db u x' comment_id d).2)
      ∧ (Response.kind (edit_comment db u x comment_id d).1
        = Response.kind (edit_comment db u x' comment_id d).1)
      ∧ (∀ r, (edit_comment db u x comment_id d).1 = Response.redirect r →
          r = Route.postDetail x) := by
    rcases hq : db.comments.find? (fun k => k.id == comment_id) with _ | c
    · rw [@edit_comment_missing db u x comment_id d hq,
          @edit_comment_missing db u x' comment_id d hq]
      exact ⟨rfl, rfl, fun r h => Response.noConfusion h⟩
    · by_cases ha : (c.author != u.id) = true
      · rw [@edit_comment_not_author db u x comment_id d c hq ha,
            @edit_comment_not_author db u x' comment_id d c hq ha]
        refine ⟨rfl, rfl, fun r h => ?_⟩
        injection h with h2
        exact h2.symm
      · rw [Bool.not_eq_true] at ha
        cases d with
        | none =>
          rw [@edit_comment_author_render db u x comment_id none c hq ha
                (fun t ht => Option.noConfusion ht),
              @edit_comment_author_render db u x' comment_id none c hq ha
                (fun t ht => Option.noConfusion ht)]
          exact ⟨rfl, rfl, fun r h => Response.noConfusion h⟩
        | some t =>
          by_cases hv : CommentsForm_is_valid t = true
          · rw [@edit_comment_author_valid db u x comment_id t c hq ha hv,
                @edit_comment_author_valid db u x' comment_id t c hq ha hv]
            refine ⟨rfl, rfl, fun r h => ?_⟩
            injection h with h2
            exact h2.symm
          · rw [Bool.not_eq_true] at hv
            have hnv : ∀ t0, (some t : Option String) = some t0 →
                CommentsForm_is_valid t0 = false := by
              intro t0 ht0
              injection ht0 with h3
              rw [← h3]
              exact hv
            rw [@edit_comment_author_render db u x comment_id (some t) c hq ha hnv,
                @edit_comment_author_render db u x' comment_id (some t) c hq ha hnv]
            exact ⟨rfl, rfl, fun r h => Response.noConfusion h⟩
  have hdel : ((delete_comment db u x comment_id m).2
        = (delete_comment db u x' comment_id m).2)
      ∧ (Response.kind (delete_comment db u x comment_id m).1
        = Response.kind (delete_comment db u x' comment_id m).1)
      ∧ (∀ r, (delete_comment db u x comment_id m).1 = Response.redirect r →
          r = Route.postDetail x) := by
    rcases hq : db.comments.find? (fun k => k.id == comment_id) with _ | c
    · rw [@delete_comment_missing db u x comment_id m hq,
          @delete_comment_missing db u x' comment_id m hq]
      exact ⟨rfl, rfl, fun r h => Response.noConfusion h⟩
    · by_cases ha : (c.author != u.id) = true
      · rw [@delete_comment_not_author db u x comment_id m c hq ha,
            @delete_comment_not_author db u x' comment_id m c hq ha]
        refine ⟨rfl, rfl, fun r h => ?_⟩
        injection h with h2
        exact h2.symm
      · rw [Bool.not_eq_true] at ha
        cases m with
        | post =>
          rw [@delete_comment_author_post db u x comment_id c hq ha,
              @delete_comment_author_post db u x' comment_id c hq ha]
          refine ⟨rfl, rfl, fun r h => ?_⟩
          injection h with h2
          exact h2.symm
        | get =>
          rw [@delete_comment_author_get db u x comment_id c hq ha,
              @delete_comment_author_get db u x' comment_id c hq ha]
          exact ⟨rfl, rfl, fun r h => Response.noConfusion h⟩
  exact ⟨hedit.1, hedit.2.1, hedit.2.2, hdel.1, hdel.2.1, hdel.2.2⟩

/-- Instantiation of C10: comment 1 belongs to post 1, yet requesting
its edit under URL post id 5 leaves the same store as under post id 7
and redirects to the detail page of post 5. -/
theorem comment_handlers_ignore_url_post_id_witness :
    exComment1.post ≠ 5
    ∧ (edit_comment exDB exAlice 5 1 none).2 = (edit_comment exDB exAlice 7 1 none).2
    ∧ Route.postDetail 5 = Route.postDetail 5 :=
  ⟨by decide,
   (comment_handlers_ignore_url_post_id exDB exAlice 5 7 1 none Method.post).1,
   (comment_handlers_ignore_url_post_id exDB exAlice 5 7 1 none Method.post).2.2.1
     (Route.postDetail 5) (by decide)⟩

/-- C8: all three listing routes paginate with page size 10 and a
1-based page parameter: an in-range page k is the k-th ten-item slice;
and with 25 qualifying posts, page 1 of the index, category and
profile listings has 10 items, page 3 has 5, and page 4 is clamped to
the last page instead of erroring. -/
theorem listing_pagination (l : List AnnPost) (k : Nat) (h1 : 1 ≤ k)
    (h2 : k ≤ Paginator_num_pages l.length 10) :
    Paginator_get_page l 10 (some (k : Int)) = (l.drop ((k - 1) * 10)).take 10
    ∧ ((index_page 100 exDB25 (some 1)).length = 10
       ∧ (index_page 100 exDB25 (some 3)).length = 5
       ∧ index_page 100 exDB25 (some 4) = index_page 100 exDB25 (some 3))
    ∧ ((category_posts_page exDB25 100 "general" (some 1)).map List.length
          = some 10
       ∧ (category_posts_page exDB25 100 "general" (some 3)).map List.length
          = some 5
       ∧ category_posts_page exDB25 100 "general" (some 4)
          = category_posts_page exDB25 100 "general" (some 3))
    ∧ ((profile_page exDB25 100 Viewer.anonymous "alice" (some 1)).map
          List.length = some 10
       ∧ (profile_page exDB25 100 Viewer.anonymous "alice" (some 3)).map
          List.length = some 5
       ∧ profile_page exDB25 100 Viewer.anonymous "alice" (some 4)
          = profile_page exDB25 100 Viewer.anonymous "alice" (some 3)) := by
  refine ⟨?_, by decide, by decide, by decide⟩
  unfold Paginator_get_page
  have hcond : ¬((k : Int) < 1 ∨ (Paginator_num_pages l.length 10 : Int) < (k : Int)) := by
    push_neg
    constructor
    · exact_mod_cast h1
    · exact_mod_cast h2
  simp only []
  rw [if_neg hcond]
  simp only [Int.toNat_natCast]

/-- Instantiation of C8: page 1 of an empty listing is the empty
slice. -/
theorem listing_pagination_witness :
    Paginator_get_page [] 10 (some 1) = [] :=
  (listing_pagination [] 1 (le_refl 1) (by decide)).1
